import Mathlib

/-!
Shallow embedding of the stock-total-return-interval repository.

Sources embedded here:
  - src/totalreturn/ak_client.py   (market data access and parsing layer)
  - src/totalreturn/calculator.py  (interval total return calculator)
  - src/totalreturn/cli.py         (batch command line path, per stock row)
  - src/gui_app.py                 (desktop computation path, per stock row)
  - src/web_app.py                 (web application last-result cache)

Python floats are modelled as rationals, dates as their YYYY-MM-DD strings
with lexicographic order (which on such strings coincides with calendar
order, exactly as the Python code relies on), raised exceptions as the
error side of Except, and provider responses as oracle fields of an Env
structure, since the provider is an external boundary of the system.
-/

namespace TotalReturn

/-! ### String comparison

Python compares date strings lexicographically by code point; on
YYYY-MM-DD strings that is calendar order.  The comparison is embedded
as an executable lexicographic order on the character lists. -/


/-- Code point comparison of two characters. -/
def charLt (a b : Char) : Bool := decide (a.val.toNat < b.val.toNat)

/-- Lexicographic comparison of two character lists. -/
def listLt : List Char → List Char → Bool
  | [], [] => false
  | [], _ :: _ => true
  | _ :: _, [] => false
  | a :: as, b :: bs => if a = b then listLt as bs else charLt a b

/-- Python strict string comparison a < b. -/
def strLt (a b : String) : Bool := listLt a.data b.data

/-- Python string comparison a <= b. -/
def strLe (a b : String) : Bool := strLt a b || a == b

/-- One cash distribution, from ak_client.py: class DividendEvent
(ex_date as YYYY-MM-DD string, cash_per_share in yuan, pre tax). -/
structure DividendEvent where
  ex_date : String
  cash_per_share : ℚ
deriving DecidableEq, Repr

/-- The interval membership test of the source loop: the ex date lies in
the half open interval (start_trade_date, end_trade_date]. -/
def inInterval (start_trade_date end_trade_date : String) (e : DividendEvent) : Bool :=
  strLt start_trade_date e.ex_date && strLe e.ex_date end_trade_date

/-- ak_client.sum_cash_dividends_in_interval: sum cash dividends per share
with ex_date in (start_trade_date, end_trade_date], returning the pair of
the running sum and the event count, exactly as the Python loop does. -/
def sum_cash_dividends_in_interval (events : List DividendEvent)
    (start_trade_date end_trade_date : String) : ℚ × ℕ :=
  events.foldl
    (fun acc e =>
      if inInterval start_trade_date end_trade_date e then
        (acc.1 + e.cash_per_share, acc.2 + 1)
      else acc)
    (0, 0)

/-! ### The cash-dividend plan text parser (ak_client._parse_cash_per_share_from_text)

Each Python regular expression used by the source is embedded as a
deterministic scanner.  Every pattern starts with a literal and its
optional pieces begin with characters that can never start the following
mandatory piece, so Python's backtracking search coincides with the
greedy one-pass match modelled here; re.search's leftmost semantics are
modelled by trying every start position from the left.  The \d class is
modelled by the ASCII digits, which covers the whole repertoire the
repository feeds to this function. -/


/-- Character class [\d.] of the amount captures. -/
def isAmtChar (c : Char) : Bool := c.isDigit || c == '.'

/-- Python text normalisation from the source: full width parentheses to
half width, every space removed, then lower cased. -/
def normalizeText (cs : List Char) : List Char :=
  ((cs.map fun c => if c = '（' then '(' else if c = '）' then ')' else c).filter
    (fun c => c != ' ')).map Char.toLower

/-- Consume a literal, returning the rest on success. -/
def dropLit : List Char → List Char → Option (List Char)
  | [], cs => some cs
  | _ :: _, [] => none
  | l :: ls, c :: cs => if c = l then dropLit ls cs else none

/-- Optional literal (a regex group followed by a question mark). -/
def dropOpt (lit : List Char) (cs : List Char) : List Char :=
  (dropLit lit cs).getD cs

/-- Greedy ([\d.]+) capture followed by the given literal; returns the
captured amount characters. -/
def amtThen (lit : List Char) (cs : List Char) : Option (List Char) :=
  let amt := cs.takeWhile isAmtChar
  let rest := cs.dropWhile isAmtChar
  if amt.isEmpty then none
  else
    match dropLit lit rest with
    | some _ => some amt
    | none => none

/-- Greedy ([\d.]+)元 capture. -/
def amtYuan (cs : List Char) : Option (List Char) := amtThen ['元'] cs

/-- One or more digits (\d+); returns the rest on success. -/
def dropDigits1 (cs : List Char) : Option (List Char) :=
  if (cs.takeWhile Char.isDigit).isEmpty then none else some (cs.dropWhile Char.isDigit)

/-- Zero or more digits (\d*). -/
def dropDigits0 (cs : List Char) : List Char := cs.dropWhile Char.isDigit

/-- Optional fraction ((?:\.\d+)?): a dot followed by at least one digit. -/
def dropFrac (cs : List Char) : List Char :=
  match cs with
  | '.' :: rest =>
    if (rest.takeWhile Char.isDigit).isEmpty then cs else rest.dropWhile Char.isDigit
  | _ => cs

/-- Optional single character (such as 股? or 转?). -/
def dropCh (c : Char) (cs : List Char) : List Char :=
  match cs with
  | x :: r => if x = c then r else cs
  | [] => cs

/-- Pattern 每股派(?:发)?(?:现金)?(?:红利)?([\d.]+)元 at one position. -/
def psAt1 (cs : List Char) : Option (List Char) :=
  match dropLit "每股派".data cs with
  | none => none
  | some r => amtYuan (dropOpt "红利".data (dropOpt "现金".data (dropOpt "发".data r)))

/-- Pattern 每股派息(?:现金)?(?:红利)?([\d.]+)元 at one position. -/
def psAt2 (cs : List Char) : Option (List Char) :=
  match dropLit "每股派息".data cs with
  | none => none
  | some r => amtYuan (dropOpt "红利".data (dropOpt "现金".data r))

/-- Pattern 10派([\d.]+)元 at one position. -/
def t1At (cs : List Char) : Option (List Char) :=
  match dropLit "10派".data cs with
  | none => none
  | some r => amtYuan r

/-- Pattern 每10股派(?:发)?(?:现金)?(?:红利)?([\d.]+)元 at one position. -/
def t2At (cs : List Char) : Option (List Char) :=
  match dropLit "每10股派".data cs with
  | none => none
  | some r => amtYuan (dropOpt "红利".data (dropOpt "现金".data (dropOpt "发".data r)))

/-- Pattern 每10股(?:派发)?(?:现金)?(?:红利)?([\d.]+)元 at one position. -/
def t3At (cs : List Char) : Option (List Char) :=
  match dropLit "每10股".data cs with
  | none => none
  | some r => amtYuan (dropOpt "红利".data (dropOpt "现金".data (dropOpt "派发".data r)))

/-- Pattern 10送\d+(?:\.\d+)?股?转?\d*(?:\.\d+)?股?派([\d.]+)元 at one position. -/
def t4At (cs : List Char) : Option (List Char) :=
  match dropLit "10送".data cs with
  | none => none
  | some r =>
    match dropDigits1 r with
    | none => none
    | some r1 =>
      let r2 := dropCh '转' (dropCh '股' (dropFrac r1))
      let r3 := dropCh '股' (dropFrac (dropDigits0 r2))
      match dropLit "派".data r3 with
      | none => none
      | some r4 => amtYuan r4

/-- Pattern 10派([\d.]+)元\(含税\) at one position. -/
def t5At (cs : List Char) : Option (List Char) :=
  match dropLit "10派".data cs with
  | none => none
  | some r => amtThen "元(含税)".data r

/-- Pattern 派([\d.]+)元 at one position. -/
def m2At (cs : List Char) : Option (List Char) :=
  match dropLit "派".data cs with
  | none => none
  | some r => amtYuan r

/-- re.search: try the position matcher at every start position from the
left and return the first capture. -/
def searchAt (f : List Char → Option (List Char)) : List Char → Option (List Char)
  | [] => f []
  | c :: cs =>
    match f (c :: cs) with
    | some r => some r
    | none => searchAt f cs

/-- Literal occurs at the head position. -/
def litHere : List Char → List Char → Bool
  | [], _ => true
  | _ :: _, [] => false
  | l :: ls, c :: cs => c == l && litHere ls cs

/-- Python substring containment (pat in text). -/
def hasSub (pat : List Char) : List Char → Bool
  | [] => litHere pat []
  | c :: cs => litHere pat (c :: cs) || hasSub pat cs

/-- Value of an ASCII digit string. -/
def digitsVal (ds : List Char) : ℕ :=
  ds.foldl (fun a c => a * 10 + (c.toNat - '0'.toNat)) 0

/-- Python float() restricted to captures of [\d.]+: digits with at most
one decimal point, at least one digit somewhere.  Returns none exactly
when float() raises, for example on a capture with two decimal points. -/
def parseAmount (amt : List Char) : Option ℚ :=
  match amt.dropWhile (fun c => c != '.') with
  | [] =>
    if (amt.takeWhile (fun c => c != '.')).isEmpty then none
    else some (digitsVal (amt.takeWhile (fun c => c != '.')) : ℚ)
  | _ :: frac =>
    if frac.contains '.' then none
    else if (amt.takeWhile (fun c => c != '.')).isEmpty && frac.isEmpty then none
    else some ((digitsVal (amt.takeWhile (fun c => c != '.')) : ℚ)
        + (digitsVal frac : ℚ) / (10 : ℚ) ^ frac.length)

/-- The ordered per-10-shares pattern loop of the source: the first
pattern that matches and whose amount parses wins; a match whose amount
fails to parse falls through to the next pattern. -/
def firstPerTen : List (List Char → Option (List Char)) → List Char → Option ℚ
  | [], _ => none
  | p :: ps, text =>
    match searchAt p text with
    | some amt =>
      match parseAmount amt with
      | some v => some (v / 10)
      | none => firstPerTen ps text
    | none => firstPerTen ps text

/-- The ordered list of per-10-shares patterns of the source. -/
def perTenList : List (List Char → Option (List Char)) := [t1At, t2At, t3At, t4At, t5At]

/-- Final fallback of the source: a generic 派X元 somewhere, provided
每10股 occurs anywhere or the text begins with 10; a parse failure here
returns 0.0. -/
def lastResort (text : List Char) : ℚ :=
  match searchAt m2At text with
  | some amt =>
    if hasSub "每10股".data text || litHere "10".data text then
      match parseAmount amt with
      | some v => v / 10
      | none => 0
    else 0
  | none => 0

/-- The body of the text parser on already normalised text.  The leading
per-share phase searches the first per-share pattern, falls back to the
second only when the first has no match at all, and a per-share match
whose amount fails to parse falls through to the per-10-shares patterns,
exactly as in the source. -/
def parseNormalized (text : List Char) : ℚ :=
  match (match searchAt psAt1 text with
      | some amt => some amt
      | none => searchAt psAt2 text).bind parseAmount with
  | some v => v
  | none =>
    match firstPerTen perTenList text with
    | some v => v
    | none => lastResort text

/-- ak_client._parse_cash_per_share_from_text: parse the cash dividend
per share out of a Chinese plan description, 0.0 when nothing matches. -/
def parse_cash_per_share_from_text (plan_text : String) : ℚ :=
  if plan_text = "" then 0
  else parseNormalized (normalizeText plan_text.data)

/-! ### Trading window derivation (ak_client.py)

Python sorted(set(...)) over date strings is embedded as an insertion
sort that drops duplicates; provider calls are oracle fields of Env.
Each raised-exception message of the source is one constructor of
ErrMsg, carrying the values interpolated into the message, so distinct
constructors correspond to distinct message texts. -/


/-- Insert into a strictly ascending list, dropping a duplicate. -/
def insertAsc (x : String) : List String → List String
  | [] => [x]
  | y :: ys =>
    if strLt x y then x :: y :: ys
    else if x = y then y :: ys
    else y :: insertAsc x ys

/-- Python sorted(set(l)) for date strings: the strictly ascending list
of the distinct elements. -/
def sortedUniq : List String → List String
  | [] => []
  | x :: xs => insertAsc x (sortedUniq xs)

/-- The error messages the embedded code can raise, one constructor per
format string of the source, carrying the interpolated values. -/
inductive ErrMsg where
  | invalidStockCode (code : String)
  | noPriceData (code date : String)
  | priceRowNotFound (code date : String)
  | invalidClose (code date : String)
  | divisionByZero
  | fetchFailed (code : String)
  | noValidDates (code : String)
  | noStartCandidate (sd code : String)
  | noEndCandidate (boundary code : String)
  | noStartFound (sd : String)
  | noEndFound (ed : String)
  | indexError
  | startAfterEnd (s e code : String)
  | unknownStock
deriving DecidableEq, Repr

/-- The external data provider and the calendar clock, as oracles.
ownRows models the rows of the stock_zh_a_hist range fetch used by
derive_trade_window_from_prices (one entry per dataframe row, some date
for a parseable date cell, none for an unparseable one; the empty list
is an empty dataframe).  proxyDates models the parsed date lists of the
fallback reference-stock fetches.  closeOn models
get_unadjusted_close_on including its raised errors.  divEvents models
get_dividends (total: every provider failure inside it is swallowed).
addShares models sum_additional_shares_in_interval (total for the same
reason).  stockName models cli.get_stock_name (total: it falls back to
the code itself).  nameToCode models the insertion-ordered name map
built by gui_app.build_code_maps. -/
structure Env where
  today : String
  ownRows : String → String → Option String → List (Option String)
  proxyDates : String → String → Option String → List String
  closeOn : String → String → Except ErrMsg ℚ
  divEvents : String → List DividendEvent
  addShares : String → String → String → ℚ × ℕ × String
  stockName : String → String
  nameToCode : List (String × String)

/-- The ordered fallback reference stocks of the source. -/
def fallbackSymbols : List String := ["600000", "000001", "601318", "000002"]

/-- ak_client.pick_start_trade_date: first trading date on or after
start_date, error when none exists. -/
def pick_start_trade_date (start_date : String) (trade_dates : List String) :
    Except ErrMsg String :=
  match trade_dates.find? (fun d => strLe start_date d) with
  | some d => .ok d
  | none => .error (.noStartFound start_date)

/-- ak_client.pick_end_trade_date: the loop keeps the last date at most
end_date and breaks at the first larger one. -/
def pick_end_trade_date (end_date : String) (trade_dates : List String) :
    Except ErrMsg String :=
  match (trade_dates.takeWhile (fun d => strLe d end_date)).getLast? with
  | some d => .ok d
  | none => .error (.noEndFound end_date)

/-- ak_client.get_default_end_trade_date: last date strictly before
today, else the last available date; none models the index error Python
would raise on an empty list. -/
def get_default_end_trade_date (today : String) (trade_dates : List String) :
    Option String :=
  match (trade_dates.takeWhile (fun d => strLt d today)).getLast? with
  | some d => some d
  | none => trade_dates.getLast?

/-- First nonempty parsed date list of the fallback loop. -/
def firstNonempty : List (List String) → Option (List String)
  | [] => none
  | l :: ls => if l.isEmpty then firstNonempty ls else some l

/-- The own-history branch of derive_trade_window_from_prices, given the
sorted distinct dates of the stock's own fetched history: start is the
head of the dates on or after start_date; the end boundary is end_date
if given else today; the end is the last candidate at most the
boundary, stepped back to the second-to-last candidate when end_date is
absent, the last candidate equals today and a second-to-last exists;
error when the start lands after the end. -/
def windowFromDates (today code sd : String) (ed : Option String) (dates : List String) :
    Except ErrMsg (String × String) :=
  match (dates.filter (fun d => strLe sd d)).head? with
  | none => .error (.noStartCandidate sd code)
  | some s =>
    match (dates.filter (fun d => strLe d (ed.getD today))).getLast? with
    | none => .error (.noEndCandidate (ed.getD today) code)
    | some e0 =>
      if ed.isNone && (e0 == today)
          && decide (2 ≤ (dates.filter (fun d => strLe d (ed.getD today))).length) then
        if strLt ((dates.filter (fun d => strLe d (ed.getD today))).dropLast.getLastD e0) s then
          .error (.startAfterEnd s
            ((dates.filter (fun d => strLe d (ed.getD today))).dropLast.getLastD e0) code)
        else
          .ok (s, (dates.filter (fun d => strLe d (ed.getD today))).dropLast.getLastD e0)
      else
        if strLt e0 s then .error (.startAfterEnd s e0 code)
        else .ok (s, e0)

/-- The fallback branch of derive_trade_window_from_prices: boundaries
picked from a generic calendar with pick_start_trade_date,
pick_end_trade_date and get_default_end_trade_date. -/
def windowFromCalendar (today code sd : String) (ed : Option String) (dates : List String) :
    Except ErrMsg (String × String) :=
  match pick_start_trade_date sd dates with
  | .error m => .error m
  | .ok s =>
    match (match ed with
      | some e => pick_end_trade_date e dates
      | none =>
        match get_default_end_trade_date today dates with
        | some d => Except.ok d
        | none => Except.error ErrMsg.indexError) with
    | .error m => .error m
    | .ok e =>
      if strLt e s then .error (.startAfterEnd s e code)
      else .ok (s, e)

/-- ak_client.derive_trade_window_from_prices: use the stock's own price
history when its fetch returns rows, else fall back through the
reference stocks; error when everything fails or no valid dates parse. -/
def derive_trade_window_from_prices (env : Env) (code sd : String) (ed : Option String) :
    Except ErrMsg (String × String) :=
  if (env.ownRows code sd ed).isEmpty then
    match firstNonempty (fallbackSymbols.map fun sym =>
        sortedUniq (env.proxyDates sym sd ed)) with
    | none => .error (.fetchFailed code)
    | some dates => windowFromCalendar env.today code sd ed dates
  else
    match sortedUniq ((env.ownRows code sd ed).filterMap id) with
    | [] => .error (.noValidDates code)
    | d :: ds => windowFromDates env.today code sd ed (d :: ds)

/-! ### Calendar arithmetic (datetime.strptime and date subtraction) -/


/-- Gregorian leap year rule. -/
def isLeapYear (y : ℤ) : Bool := (y % 4 == 0 && y % 100 != 0) || y % 400 == 0

/-- Days in a Gregorian month. -/
def daysInMonth (y m : ℤ) : ℤ :=
  if m = 2 then (if isLeapYear y then 29 else 28)
  else if m = 4 ∨ m = 6 ∨ m = 9 ∨ m = 11 then 30
  else 31

/-- Day number of a Gregorian date, days since 1970-01-01 (the standard
days-from-civil computation which datetime subtraction amounts to). -/
def toDayNumber (y m d : ℤ) : ℤ :=
  (if m ≤ 2 then y - 1 else y).fdiv 400 * 146097
  + ((if m ≤ 2 then y - 1 else y) - (if m ≤ 2 then y - 1 else y).fdiv 400 * 400) * 365
  + ((if m ≤ 2 then y - 1 else y) - (if m ≤ 2 then y - 1 else y).fdiv 400 * 400).fdiv 4
  - ((if m ≤ 2 then y - 1 else y) - (if m ≤ 2 then y - 1 else y).fdiv 400 * 400).fdiv 100
  + (153 * (if 2 < m then m - 3 else m + 9) + 2).fdiv 5 + d - 1
  - 719468

/-- datetime.strptime(s, percent-Y-m-d) as a validator and day-number
conversion: three dash separated all-digit fields of bounded width, with
range checks on year, month and day; none models the raised ValueError. -/
def parseDate (s : String) : Option ℤ :=
  match s.data.splitOn '-' with
  | [ys, ms, ds] =>
    if ys.isEmpty || ms.isEmpty || ds.isEmpty then none
    else if !(ys.all Char.isDigit && ms.all Char.isDigit && ds.all Char.isDigit) then none
    else if 4 < ys.length || 2 < ms.length || 2 < ds.length then none
    else if 1 ≤ (digitsVal ys : ℤ) ∧ (digitsVal ys : ℤ) ≤ 9999
        ∧ 1 ≤ (digitsVal ms : ℤ) ∧ (digitsVal ms : ℤ) ≤ 12
        ∧ 1 ≤ (digitsVal ds : ℤ)
        ∧ (digitsVal ds : ℤ) ≤ daysInMonth (digitsVal ys : ℤ) (digitsVal ms : ℤ) then
      some (toDayNumber (digitsVal ys : ℤ) (digitsVal ms : ℤ) (digitsVal ds : ℤ))
    else none
  | _ => none

/-- The whole-day difference end minus start of the two parsed dates;
none when either fails to parse. -/
def dateDiffDays (end_trade_date start_trade_date : String) : Option ℤ :=
  match parseDate end_trade_date, parseDate start_trade_date with
  | some a, some b => some (a - b)
  | _, _ => none

/-- The shared annualisation step of cli.run and gui_app.compute_for_codes:
(1 + total_return) ** (365 / days) - 1 when the calendar day difference
is positive, absent when it is zero or negative or a date fails to
parse (both sources wrap this block in a try/except that yields None). -/
noncomputable def annualizedReturn (total_return : ℚ)
    (start_trade_date end_trade_date : String) : Option ℝ :=
  match dateDiffDays end_trade_date start_trade_date with
  | none => none
  | some days =>
    if 0 < days then
      some ((1 + (total_return : ℝ)) ^ ((365 : ℝ) / (days : ℝ)) - 1)
    else none

/-! ### The return calculator (calculator.py) -/


/-- calculator.IntervalResult. -/
structure IntervalResult where
  code : String
  start_trade_date : String
  end_trade_date : String
  start_close : ℚ
  end_close : ℚ
  dividend_sum_per_share : ℚ
  dividend_event_count : ℕ
  additional_shares_per_share : ℚ
  additional_event_count : ℕ
  additional_value_per_share : ℚ
  bonus_allot_desc : String
  total_return : ℚ

/-- calculator.compute_interval_total_return: unadjusted closes on both
boundary dates, cash dividends and additional shares over the half open
interval, additional value at the end close, and the total return
formula; a zero start close is the division error Python would raise. -/
def compute_interval_total_return (env : Env) (code start_trade_date end_trade_date : String) :
    Except ErrMsg IntervalResult :=
  match env.closeOn code start_trade_date with
  | .error m => .error m
  | .ok start_close =>
    match env.closeOn code end_trade_date with
    | .error m => .error m
    | .ok end_close =>
      match sum_cash_dividends_in_interval (env.divEvents code)
          start_trade_date end_trade_date with
      | (div_sum, div_count) =>
        match env.addShares code start_trade_date end_trade_date with
        | (add_shares, add_count, add_desc) =>
          if start_close = 0 then .error .divisionByZero
          else .ok {
            code := code
            start_trade_date := start_trade_date
            end_trade_date := end_trade_date
            start_close := start_close
            end_close := end_close
            dividend_sum_per_share := div_sum
            dividend_event_count := div_count
            additional_shares_per_share := add_shares
            additional_event_count := add_count
            additional_value_per_share := end_close * add_shares
            bonus_allot_desc := add_desc
            total_return := (end_close + div_sum + end_close * add_shares - start_close)
              / start_close }

/-! ### Output rows of the CLI and desktop paths -/


/-- An output row: every field the cross-path comparator reads, with
absent Python values as none. -/
structure Row where
  name : String
  code : String
  start_trade_date : Option String
  end_trade_date : Option String
  start_close : Option ℚ
  end_close : Option ℚ
  div_sum_per_share : Option ℚ
  div_event_count : Option ℕ
  additional_shares_per_share : Option ℚ
  additional_event_count : Option ℕ
  additional_value_per_share : Option ℚ
  bonus_allot_desc : Option String
  total_return : Option ℚ
  annualized_return : Option ℝ
  error : Option ErrMsg

/-- Python str.zfill(6) for the plain strings the repository feeds it. -/
def zfill6 (s : String) : String :=
  if s.length < 6 then String.mk (List.replicate (6 - s.length) '0' ++ s.data) else s

/-- Python str.strip(). -/
def pyStrip (s : String) : String :=
  String.mk (((s.data.dropWhile Char.isWhitespace).reverse.dropWhile
    Char.isWhitespace).reverse)

/-- The per-stock body of cli.run: derive the window, compute the
interval result, recompute the additional shares, the total return and
the annualised return, and build the output row; any failure becomes an
error row with the numeric fields absent (the dict of the source's
error row carries the trade dates as assigned so far and has no
bonus_allot_desc or additional keys at all). -/
noncomputable def cliStockRow (env : Env) (code sd : String) (ed : Option String) : Row :=
  match derive_trade_window_from_prices env code sd ed with
  | .error m =>
    { name := env.stockName code, code := code
      start_trade_date := none, end_trade_date := none
      start_close := none, end_close := none
      div_sum_per_share := none, div_event_count := none
      additional_shares_per_share := none, additional_event_count := none
      additional_value_per_share := none, bonus_allot_desc := none
      total_return := none, annualized_return := none, error := some m }
  | .ok (s, e) =>
    match compute_interval_total_return env code s e with
    | .error m =>
      { name := env.stockName code, code := code
        start_trade_date := some s, end_trade_date := some e
        start_close := none, end_close := none
        div_sum_per_share := none, div_event_count := none
        additional_shares_per_share := none, additional_event_count := none
        additional_value_per_share := none, bonus_allot_desc := none
        total_return := none, annualized_return := none, error := some m }
    | .ok res =>
      { name := env.stockName code, code := code
        start_trade_date := some s, end_trade_date := some e
        start_close := some res.start_close, end_close := some res.end_close
        div_sum_per_share := some res.dividend_sum_per_share
        div_event_count := some res.dividend_event_count
        additional_shares_per_share := some (env.addShares code s e).1
        additional_event_count := some (env.addShares code s e).2.1
        additional_value_per_share := some (res.end_close * (env.addShares code s e).1)
        bonus_allot_desc := some (env.addShares code s e).2.2
        total_return := some ((res.end_close + res.dividend_sum_per_share
          + res.end_close * (env.addShares code s e).1 - res.start_close) / res.start_close)
        annualized_return := annualizedReturn ((res.end_close + res.dividend_sum_per_share
          + res.end_close * (env.addShares code s e).1 - res.start_close) / res.start_close) s e
        error := none }

/-- cli.run over the configured codes, each normalised with zfill(6). -/
noncomputable def cliRunRows (env : Env) (cfgCodes : List String) (sd : String)
    (ed : Option String) : List Row :=
  cfgCodes.map fun c => cliStockRow env (zfill6 c) sd ed

/-- Lower case of a string (Python str.lower on the repertoire used). -/
def strLower (s : String) : String := String.mk (s.data.map Char.toLower)

/-- Nonempty all-digit string (Python str.isdigit on ASCII). -/
def isDigitString (s : String) : Bool := !s.data.isEmpty && s.data.all Char.isDigit

/-- Python substring containment: a in b. -/
def hasSubStr (a b : String) : Bool := hasSub a.data b.data

/-- gui_app.resolve_to_code: digits are zero padded, else exact name
match, else case insensitive exact match, else the first substring
match in map order, else unresolved. -/
def resolve_to_code (name_to_code : List (String × String)) (text : String) : Option String :=
  if pyStrip text = "" then none
  else if isDigitString (pyStrip text) && decide ((pyStrip text).length ≤ 6) then
    some (zfill6 (pyStrip text))
  else
    match name_to_code.find? (fun kv => kv.1 == pyStrip text) with
    | some kv => some kv.2
    | none =>
      match name_to_code.find? (fun kv => strLower kv.1 == strLower (pyStrip text)) with
      | some kv => some kv.2
      | none =>
        match name_to_code.filter (fun kv =>
            hasSubStr (pyStrip text) kv.1 || hasSubStr kv.1 (pyStrip text)) with
        | [] => none
        | kv :: _ => some kv.2

/-- The error row compute_for_codes emits for an unresolved input item. -/
def unresolvedRow (label : String) : Row :=
  { name := label, code := ""
    start_trade_date := none, end_trade_date := none
    start_close := none, end_close := none
    div_sum_per_share := none, div_event_count := none
    additional_shares_per_share := none, additional_event_count := none
    additional_value_per_share := none, bonus_allot_desc := some ""
    total_return := none, annualized_return := none, error := some .unknownStock }

/-- The per-stock body of gui_app.compute_for_codes for one resolved
code: the same pipeline as the CLI row; its error row however sets the
trade dates to None unconditionally and bonus_allot_desc to the empty
string. -/
noncomputable def guiStockRow (env : Env) (code sd : String) (ed : Option String) : Row :=
  match derive_trade_window_from_prices env code sd ed with
  | .error m =>
    { name := env.stockName code, code := code
      start_trade_date := none, end_trade_date := none
      start_close := none, end_close := none
      div_sum_per_share := none, div_event_count := none
      additional_shares_per_share := none, additional_event_count := none
      additional_value_per_share := none, bonus_allot_desc := some ""
      total_return := none, annualized_return := none, error := some m }
  | .ok (s, e) =>
    match compute_interval_total_return env code s e with
    | .error m =>
      { name := env.stockName code, code := code
        start_trade_date := none, end_trade_date := none
        start_close := none, end_close := none
        div_sum_per_share := none, div_event_count := none
        additional_shares_per_share := none, additional_event_count := none
        additional_value_per_share := none, bonus_allot_desc := some ""
        total_return := none, annualized_return := none, error := some m }
    | .ok res =>
      { name := env.stockName code, code := code
        start_trade_date := some s, end_trade_date := some e
        start_close := some res.start_close, end_close := some res.end_close
        div_sum_per_share := some res.dividend_sum_per_share
        div_event_count := some res.dividend_event_count
        additional_shares_per_share := some (env.addShares code s e).1
        additional_event_count := some (env.addShares code s e).2.1
        additional_value_per_share := some (res.end_close * (env.addShares code s e).1)
        bonus_allot_desc := some (env.addShares code s e).2.2
        total_return := some ((res.end_close + res.dividend_sum_per_share
          + res.end_close * (env.addShares code s e).1 - res.start_close) / res.start_close)
        annualized_return := annualizedReturn ((res.end_close + res.dividend_sum_per_share
          + res.end_close * (env.addShares code s e).1 - res.start_close) / res.start_close) s e
        error := none }

/-- gui_app.compute_for_codes: strip each input item, resolve it
through the name map, emit one unresolved error row per unresolvable
item first, then one computed row per resolved code, in input order.
The web application's /calculate reuses this function unchanged. -/
noncomputable def compute_for_codes (env : Env) (items : List String) (sd : String)
    (ed : Option String) : List Row :=
  ((items.filter (fun it =>
      (resolve_to_code env.nameToCode (pyStrip it)).isNone)).map
    (fun it => unresolvedRow (pyStrip it)))
  ++ ((items.filterMap (fun it => resolve_to_code env.nameToCode (pyStrip it))).map
    (fun code => guiStockRow env code sd ed))

/-! ### The web application's process-wide last-result cache (web_app.py) -/


/-- What POST /calculate does besides mutating the cache. -/
inductive CalcOutcome where
  | flashRedirect
  | rendered (rows : List Row)

/-- What GET /export does. -/
inductive ExportOutcome where
  | noResults
  | served (rows : List Row)

/-- One /calculate request: the submitted form fields and the outcome
of the compute_for_codes call (ok rows on return, error when it
raises). -/
structure CalcEvent where
  stocks_text : String
  start_date : String
  result : Except String (List Row)

/-- web_app.calculate: blank stocks or blank start date flash and
redirect without touching LAST_ROWS; an exception from
compute_for_codes flashes and redirects without touching LAST_ROWS;
only a successful computation overwrites LAST_ROWS, with its rows. -/
def calculateStep (ev : CalcEvent) (lastRows : List Row) : List Row × CalcOutcome :=
  if pyStrip ev.stocks_text = "" then (lastRows, .flashRedirect)
  else if pyStrip ev.start_date = "" then (lastRows, .flashRedirect)
  else
    match ev.result with
    | .error _ => (lastRows, .flashRedirect)
    | .ok rows => (rows, .rendered rows)

/-- web_app.export: flashes when the cache is empty (Python truthiness
of LAST_ROWS), else serves the cached rows. -/
def exportStep (lastRows : List Row) : ExportOutcome :=
  if lastRows.isEmpty then .noResults else .served lastRows

/-- The LAST_ROWS cache after a sequence of /calculate requests. -/
def runCalcs (events : List CalcEvent) (st : List Row) : List Row :=
  events.foldl (fun acc ev => (calculateStep ev acc).1) st

/-- The rows a /calculate event caches, none when it validates or
computes unsuccessfully. -/
def eventSuccess (ev : CalcEvent) : Option (List Row) :=
  if pyStrip ev.stocks_text = "" then none
  else if pyStrip ev.start_date = "" then none
  else
    match ev.result with
    | .error _ => none
    | .ok rows => some rows

/-- Rows of the most recent successful /calculate of a request list. -/
def lastSuccessRows : List CalcEvent → Option (List Row)
  | [] => none
  | ev :: evs =>
    match lastSuccessRows evs with
    | some r => some r
    | none => eventSuccess ev

/-- _compare_gui_cli.approx_equal on an optional numeric field: both
absent is equal, exactly one absent is a difference, both present
compare with absolute tolerance one millionth. -/
def optRatAgree (a b : Option ℚ) : Prop :=
  match a, b with
  | none, none => True
  | some x, some y => |x - y| ≤ 1/1000000
  | _, _ => False

/-- approx_equal on an optional integer field (compared as numbers). -/
def optNatAgree (a b : Option ℕ) : Prop :=
  match a, b with
  | none, none => True
  | some x, some y => |(x : ℚ) - (y : ℚ)| ≤ 1/1000000
  | _, _ => False

/-- approx_equal on the optional real annualised return. -/
def optRealAgree (a b : Option ℝ) : Prop :=
  match a, b with
  | none, none => True
  | some x, some y => |x - y| ≤ 1/1000000
  | _, _ => False

/-- _compare_gui_cli.compare_rows on one matched code: exact equality on
the trade dates, the bonus description and the error, tolerance
1/1000000 on every numeric field, with both-absent equal and exactly
one absent a difference. -/
def rowsAgree (g c : Row) : Prop :=
  g.start_trade_date = c.start_trade_date ∧
  g.end_trade_date = c.end_trade_date ∧
  optRatAgree g.start_close c.start_close ∧
  optRatAgree g.end_close c.end_close ∧
  optRatAgree g.div_sum_per_share c.div_sum_per_share ∧
  optNatAgree g.div_event_count c.div_event_count ∧
  optRatAgree g.additional_shares_per_share c.additional_shares_per_share ∧
  optNatAgree g.additional_event_count c.additional_event_count ∧
  optRatAgree g.additional_value_per_share c.additional_value_per_share ∧
  optRatAgree g.total_return c.total_return ∧
  optRealAgree g.annualized_return c.annualized_return ∧
  g.bonus_allot_desc = c.bonus_allot_desc ∧
  g.error = c.error

/-- The row invariant of C8 over the numeric result fields. -/
def rowIntact (r : Row) : Prop :=
  (r.error = none →
    r.start_close.isSome = true ∧ r.end_close.isSome = true
    ∧ r.div_sum_per_share.isSome = true ∧ r.div_event_count.isSome = true
    ∧ r.additional_shares_per_share.isSome = true
    ∧ r.additional_event_count.isSome = true
    ∧ r.additional_value_per_share.isSome = true ∧ r.total_return.isSome = true) ∧
  (r.error ≠ none →
    r.start_close = none ∧ r.end_close = none
    ∧ r.div_sum_per_share = none ∧ r.div_event_count = none
    ∧ r.additional_shares_per_share = none ∧ r.additional_event_count = none
    ∧ r.additional_value_per_share = none ∧ r.total_return = none)

end TotalReturn

/-- A concrete provider environment: a stock listed 2020-07-01, well
after a requested start of 2019-01-01, with two trading days fetched,
queried on 2024-05-10. -/
def envW1 : TotalReturn.Env where
  today := "2024-05-10"
  ownRows := fun _ _ _ => [some "2020-07-01", some "2020-07-02"]
  proxyDates := fun _ _ _ => []
  closeOn := fun code date => Except.error (TotalReturn.ErrMsg.noPriceData code date)
  divEvents := fun _ => []
  addShares := fun _ _ _ => (0, 0, "")
  stockName := fun c => c
  nameToCode := []

/-- A provider environment on which the whole per-stock pipeline
succeeds: closes 10.0 and 12.0 on the two boundary dates, one cash
dividend of 0.5 inside the interval, additional shares 0.1 per share. -/
def envW2 : TotalReturn.Env where
  today := "2024-01-05"
  ownRows := fun _ _ _ => [some "2023-01-03", some "2023-12-29"]
  proxyDates := fun _ _ _ => []
  closeOn := fun _ d => if d = "2023-01-03" then Except.ok 10 else Except.ok 12
  divEvents := fun _ => [⟨"2023-06-20", 1/2⟩]
  addShares := fun _ _ _ => (1/10, 1, "2023-07-10: 送0.0500股/股, 转0.0500股/股")
  stockName := fun c => c
  nameToCode := [("贵州茅台", "600519")]

/-- The interval result the calculator produces on envW2 (fields written
as the unevaluated arithmetic the computation builds). -/
def resW2 : TotalReturn.IntervalResult where
  code := "600519"
  start_trade_date := "2023-01-03"
  end_trade_date := "2023-12-29"
  start_close := 10
  end_close := 12
  dividend_sum_per_share := 0 + 1/2
  dividend_event_count := 0 + 1
  additional_shares_per_share := 1/10
  additional_event_count := 1
  additional_value_per_share := 12 * (1/10)
  bonus_allot_desc := "2023-07-10: 送0.0500股/股, 转0.0500股/股"
  total_return := (12 + (0 + 1/2) + 12 * (1/10) - 10) / 10

/-- A provider environment whose window derivation succeeds but whose
price lookup fails, so both front ends produce error rows. -/
def envW3 : TotalReturn.Env where
  today := "2024-05-10"
  ownRows := fun _ _ _ => [some "2024-01-02", some "2024-01-03"]
  proxyDates := fun _ _ _ => []
  closeOn := fun code date => Except.error (TotalReturn.ErrMsg.noPriceData code date)
  divEvents := fun _ => []
  addShares := fun _ _ _ => (0, 0, "")
  stockName := fun c => c
  nameToCode := []

namespace TotalReturn

lemma charLt_irrefl (a : Char) : charLt a a = false := by
  simp [charLt]

lemma charLt_trans {a b c : Char} (h1 : charLt a b = true) (h2 : charLt b c = true) :
    charLt a c = true := by
  simp only [charLt, decide_eq_true_eq] at *
  omega

lemma charLt_ne {a b : Char} (h : charLt a b = true) : a ≠ b := by
  intro he
  subst he
  simp [charLt_irrefl] at h

lemma listLt_irrefl (l : List Char) : listLt l l = false := by
  induction l with
  | nil => rfl
  | cons a as ih => simp [listLt, ih]

lemma listLt_trans : ∀ {as bs cs : List Char},
    listLt as bs = true → listLt bs cs = true → listLt as cs = true := by
  intro as
  induction as with
  | nil =>
    intro bs cs h1 h2
    cases bs with
    | nil => simp [listLt] at h1
    | cons b bs =>
      cases cs with
      | nil => simp [listLt] at h2
      | cons c cs => rfl
  | cons a as ih =>
    intro bs cs h1 h2
    cases bs with
    | nil => simp [listLt] at h1
    | cons b bs =>
      cases cs with
      | nil => simp [listLt] at h2
      | cons c cs =>
        simp only [listLt] at h1 h2 ⊢
        by_cases hab : a = b
        · subst hab
          simp only [if_pos rfl] at h1
          by_cases hac : a = c
          · subst hac
            simp only [if_pos rfl] at h2 ⊢
            exact ih h1 h2
          · simp only [if_neg hac] at h2 ⊢
            exact h2
        · simp only [if_neg hab] at h1
          by_cases hbc : b = c
          · subst hbc
            simp only [if_neg hab] at h2 ⊢
            exact h1
          · simp only [if_neg hbc] at h2
            have hac : charLt a c = true := charLt_trans h1 h2
            have : a ≠ c := by
              intro he
              subst he
              exact absurd (charLt_trans h1 h2) (by simp [charLt_irrefl])
            simp only [if_neg this]
            exact hac

lemma listLt_total : ∀ {as bs : List Char},
    listLt as bs = false → as ≠ bs → listLt bs as = true := by
  intro as
  induction as with
  | nil =>
    intro bs h1 h2
    cases bs with
    | nil => exact absurd rfl h2
    | cons b bs => simp [listLt] at h1
  | cons a as ih =>
    intro bs h1 h2
    cases bs with
    | nil => rfl
    | cons b bs =>
      simp only [listLt] at h1 ⊢
      by_cases hab : a = b
      · subst hab
        simp only [if_pos rfl] at h1 ⊢
        refine ih h1 (fun he => h2 ?_)
        rw [he]
      · simp only [if_neg hab] at h1
        have hba : b ≠ a := fun he => hab he.symm
        simp only [if_neg hba]
        simp only [charLt, decide_eq_true_eq, decide_eq_false_iff_not, not_lt] at h1 ⊢
        rcases Nat.lt_or_ge (b.val.toNat) (a.val.toNat) with h | h
        · exact h
        · exfalso
          have hv : a.val.toNat = b.val.toNat := le_antisymm h h1
          apply hab
          apply Char.ext
          exact UInt32.toNat.inj hv

lemma strLt_irrefl (a : String) : strLt a a = false := listLt_irrefl a.data

lemma strLt_trans {a b c : String} (h1 : strLt a b = true) (h2 : strLt b c = true) :
    strLt a c = true := listLt_trans h1 h2

lemma strLt_asymm {a b : String} (h : strLt a b = true) : strLt b a = false := by
  cases hba : strLt b a
  · rfl
  · exact absurd (strLt_trans h hba) (by simp [strLt_irrefl])

lemma strLt_ne {a b : String} (h : strLt a b = true) : a ≠ b := by
  intro he
  subst he
  simp [strLt_irrefl] at h

lemma strLt_total {a b : String} (h1 : strLt a b = false) (h2 : a ≠ b) :
    strLt b a = true := by
  refine listLt_total h1 (fun he => h2 ?_)
  cases a
  cases b
  simp_all

lemma strLe_iff {a b : String} : strLe a b = true ↔ strLt a b = true ∨ a = b := by
  simp only [strLe, Bool.or_eq_true, beq_iff_eq]

lemma strLe_refl (a : String) : strLe a a = true := strLe_iff.mpr (Or.inr rfl)

lemma strLe_of_lt {a b : String} (h : strLt a b = true) : strLe a b = true :=
  strLe_iff.mpr (Or.inl h)

lemma strLt_of_le_of_ne {a b : String} (h : strLe a b = false) : strLt b a = true := by
  simp only [strLe, Bool.or_eq_false_iff, beq_eq_false_iff_ne, ne_eq] at h
  exact strLt_total h.1 h.2

lemma strLe_trans {a b c : String} (h1 : strLe a b = true) (h2 : strLe b c = true) :
    strLe a c = true := by
  rcases strLe_iff.mp h1 with h1 | rfl
  · rcases strLe_iff.mp h2 with h2 | rfl
    · exact strLe_of_lt (strLt_trans h1 h2)
    · exact strLe_of_lt h1
  · exact h2

lemma strLt_of_lt_of_le {a b c : String} (h1 : strLt a b = true) (h2 : strLe b c = true) :
    strLt a c = true := by
  rcases strLe_iff.mp h2 with h2 | rfl
  · exact strLt_trans h1 h2
  · exact h1

lemma strLt_of_le_of_lt {a b c : String} (h1 : strLe a b = true) (h2 : strLt b c = true) :
    strLt a c = true := by
  rcases strLe_iff.mp h1 with h1 | rfl
  · exact strLt_trans h1 h2
  · exact h2

lemma sum_cash_foldl_shift (events : List DividendEvent) (s e : String) (a : ℚ) (n : ℕ) :
    events.foldl
      (fun acc ev =>
        if inInterval s e ev then (acc.1 + ev.cash_per_share, acc.2 + 1) else acc)
      (a, n)
    = (a + ((events.filter (inInterval s e)).map DividendEvent.cash_per_share).sum,
       n + (events.filter (inInterval s e)).length) := by
  induction events generalizing a n with
  | nil => simp
  | cons ev tl ih =>
    cases hb : inInterval s e ev
    · simp only [List.foldl_cons, hb, Bool.false_eq_true, if_false, List.filter_cons, ite_false]
      exact ih a n
    · simp only [List.foldl_cons, hb, if_true, List.filter_cons, ite_true,
        List.map_cons, List.sum_cons, List.length_cons]
      rw [ih]
      simp only [Prod.mk.injEq]
      exact ⟨by ring, by omega⟩

lemma parseAmount_nonneg {amt : List Char} {v : ℚ} (h : parseAmount amt = some v) :
    0 ≤ v := by
  unfold parseAmount at h
  split at h
  · split at h
    · exact absurd h (by simp)
    · obtain rfl := Option.some.inj h
      exact Nat.cast_nonneg _
  · split at h
    · exact absurd h (by simp)
    · split at h
      · exact absurd h (by simp)
      · obtain rfl := Option.some.inj h
        exact add_nonneg (Nat.cast_nonneg _)
          (div_nonneg (Nat.cast_nonneg _) (pow_nonneg (by norm_num) _))

lemma firstPerTen_nonneg :
    ∀ (ps : List (List Char → Option (List Char))) (text : List Char) (v : ℚ),
      firstPerTen ps text = some v → 0 ≤ v := by
  intro ps
  induction ps with
  | nil => intro text v h; exact absurd h (by simp [firstPerTen])
  | cons p tl ih =>
    intro text v h
    unfold firstPerTen at h
    split at h
    · split at h
      · obtain rfl := Option.some.inj h
        exact div_nonneg (parseAmount_nonneg (by assumption)) (by norm_num)
      · exact ih text v h
    · exact ih text v h

lemma lastResort_nonneg (text : List Char) : 0 ≤ lastResort text := by
  unfold lastResort
  split
  · split
    · split
      · exact div_nonneg (parseAmount_nonneg (by assumption)) (by norm_num)
      · exact le_refl 0
    · exact le_refl 0
  · exact le_refl 0

lemma parseNormalized_nonneg (text : List Char) : 0 ≤ parseNormalized text := by
  unfold parseNormalized
  split
  · rename_i v heq
    obtain ⟨amt, _, hamt⟩ := Option.bind_eq_some.mp heq
    exact parseAmount_nonneg hamt
  · split
    · exact firstPerTen_nonneg _ _ _ (by assumption)
    · exact lastResort_nonneg _

lemma mem_insertAsc {x a : String} {l : List String} :
    a ∈ insertAsc x l ↔ a = x ∨ a ∈ l := by
  induction l with
  | nil => simp [insertAsc]
  | cons y ys ih =>
    cases h1 : strLt x y with
    | true => simp [insertAsc, h1]
    | false =>
      by_cases h2 : x = y
      · subst h2
        simp only [insertAsc, h1, Bool.false_eq_true, if_false, if_true, List.mem_cons]
        tauto
      · simp only [insertAsc, h1, Bool.false_eq_true, if_false, if_neg h2, List.mem_cons, ih]
        tauto

lemma pairwise_insertAsc {x : String} {l : List String}
    (h : l.Pairwise (fun p q => strLt p q = true)) :
    (insertAsc x l).Pairwise (fun p q => strLt p q = true) := by
  induction l with
  | nil => simp [insertAsc]
  | cons y ys ih =>
    obtain ⟨hy, hys⟩ := List.pairwise_cons.mp h
    cases h1 : strLt x y with
    | true =>
      simp only [insertAsc, h1, if_true]
      refine List.pairwise_cons.mpr ⟨?_, h⟩
      intro b hb
      rcases List.mem_cons.mp hb with rfl | hb
      · exact h1
      · exact strLt_trans h1 (hy b hb)
    | false =>
      by_cases h2 : x = y
      · subst h2
        simp only [insertAsc, h1, Bool.false_eq_true, if_false, if_pos rfl]
        exact h
      · simp only [insertAsc, h1, Bool.false_eq_true, if_false, if_neg h2]
        refine List.pairwise_cons.mpr ⟨?_, ih hys⟩
        intro b hb
        rcases mem_insertAsc.mp hb with rfl | hb
        · exact strLt_total h1 h2
        · exact hy b hb

lemma sortedUniq_pairwise (l : List String) :
    (sortedUniq l).Pairwise (fun p q => strLt p q = true) := by
  induction l with
  | nil => simp [sortedUniq]
  | cons x xs ih => exact pairwise_insertAsc ih

lemma mem_sortedUniq {a : String} {l : List String} : a ∈ sortedUniq l ↔ a ∈ l := by
  induction l with
  | nil => simp [sortedUniq]
  | cons x xs ih =>
    simp only [sortedUniq, mem_insertAsc, ih, List.mem_cons]

lemma mem_of_getLast? {l : List String} {a : String} (h : l.getLast? = some a) : a ∈ l := by
  cases l with
  | nil => simp at h
  | cons x xs =>
    have hne : x :: xs ≠ [] := by simp
    rw [List.getLast?_eq_getLast _ hne] at h
    obtain rfl := Option.some.inj h
    exact List.getLast_mem hne

lemma lt_getLast_of_stepback {l : List String} {a : String}
    (hpw : l.Pairwise (fun p q => strLt p q = true))
    (hlen : 2 ≤ l.length) (hl : l.getLast? = some a) :
    strLt (l.dropLast.getLastD a) a = true := by
  have hne : l ≠ [] := by
    intro h
    subst h
    simp at hlen
  rw [List.getLast?_eq_getLast _ hne] at hl
  obtain rfl := Option.some.inj hl
  have hdec : l.dropLast ++ [l.getLast hne] = l := List.dropLast_append_getLast hne
  have hdne : l.dropLast ≠ [] := by
    intro h
    have : l.dropLast.length = 0 := by rw [h]; rfl
    rw [List.length_dropLast] at this
    omega
  have hmem : l.dropLast.getLastD (l.getLast hne) ∈ l.dropLast := by
    rw [List.getLastD_eq_getLast?, List.getLast?_eq_getLast _ hdne]
    exact List.getLast_mem hdne
  have hpw2 : (l.dropLast ++ [l.getLast hne]).Pairwise (fun p q => strLt p q = true) := by
    rw [hdec]
    exact hpw
  obtain ⟨-, -, hcross⟩ := List.pairwise_append.mp hpw2
  exact hcross _ hmem _ (List.mem_singleton.mpr rfl)

lemma windowFromDates_ok_end_lt_today {today code sd : String} {dates : List String}
    {s e : String}
    (hpw : dates.Pairwise (fun p q => strLt p q = true))
    (hall : ∀ d ∈ dates, strLe d today = true)
    (hlen : 2 ≤ dates.length)
    (h : windowFromDates today code sd none dates = .ok (s, e)) :
    strLt e today = true := by
  have hfilter : dates.filter (fun d => strLe d ((none : Option String).getD today)) = dates :=
    List.filter_eq_self.mpr (by simpa using hall)
  unfold windowFromDates at h
  rw [hfilter] at h
  cases hhead : (dates.filter (fun d => strLe sd d)).head? with
  | none => rw [hhead] at h; exact absurd h (by simp)
  | some s0 =>
    rw [hhead] at h
    cases hlast : dates.getLast? with
    | none =>
      rw [hlast] at h
      exact absurd h (by simp)
    | some e0 =>
      rw [hlast] at h
      dsimp only at h
      by_cases htoday : (e0 == today) = true
      · have hcond : ((none : Option String).isNone && (e0 == today)
            && decide (2 ≤ dates.length)) = true := by
          simp [htoday, hlen]
        rw [hcond] at h
        simp only [if_true] at h
        have hstep : strLt (dates.dropLast.getLastD e0) e0 = true :=
          lt_getLast_of_stepback hpw hlen hlast
        split at h
        · exact absurd h (by simp)
        · have he : e = dates.dropLast.getLastD e0 := by
            have := Except.ok.inj h
            exact (Prod.mk.injEq .. ▸ this).2.symm
          rw [he, ← beq_iff_eq.mp htoday]
          exact hstep
      · have hcond : ((none : Option String).isNone && (e0 == today)
            && decide (2 ≤ dates.length)) = false := by
          simp only [Bool.and_eq_false_iff]
          left
          right
          simpa using htoday
        rw [hcond] at h
        simp only [Bool.false_eq_true, if_false] at h
        split at h
        · exact absurd h (by simp)
        · have he : e = e0 := by
            have := Except.ok.inj h
            exact (Prod.mk.injEq .. ▸ this).2.symm
          have hmem : e0 ∈ dates := mem_of_getLast? hlast
          rcases strLe_iff.mp (hall e0 hmem) with hlt | heq
          · rw [he]; exact hlt
          · exact absurd (beq_iff_eq.mpr heq) htoday

lemma windowFromCalendar_ok_end_lt_today {today code sd : String} {dates : List String}
    {s e : String}
    (hpw : dates.Pairwise (fun p q => strLt p q = true))
    (hall : ∀ d ∈ dates, strLe d today = true)
    (hlen : 2 ≤ dates.length)
    (h : windowFromCalendar today code sd none dates = .ok (s, e)) :
    strLt e today = true := by
  unfold windowFromCalendar at h
  cases hps : pick_start_trade_date sd dates with
  | error m => rw [hps] at h; exact absurd h (by simp)
  | ok s0 =>
    rw [hps] at h
    dsimp only at h
    cases hd : get_default_end_trade_date today dates with
    | none => rw [hd] at h; exact absurd h (by simp)
    | some e1 =>
      rw [hd] at h
      dsimp only at h
      have he1 : strLt e1 today = true := by
        unfold get_default_end_trade_date at hd
        cases htw : (dates.takeWhile (fun d => strLt d today)).getLast? with
        | some d =>
          rw [htw] at hd
          obtain rfl := Option.some.inj hd
          have hx : d ∈ List.takeWhile (fun x => strLt x today) dates :=
            mem_of_getLast? htw
          have hy := List.mem_takeWhile_imp hx
          simpa using hy
        | none =>
          exfalso
          obtain ⟨d0, tl, rfl⟩ : ∃ d0 tl, dates = d0 :: tl := by
            cases dates with
            | nil => simp at hlen
            | cons a l => exact ⟨a, l, rfl⟩
          obtain ⟨d1, rest, rfl⟩ : ∃ d1 rest, tl = d1 :: rest := by
            cases tl with
            | nil => simp at hlen
            | cons a l => exact ⟨a, l, rfl⟩
          have h01 : strLt d0 d1 = true :=
            (List.pairwise_cons.mp hpw).1 d1 (List.mem_cons_self d1 rest)
          have hd1t : strLe d1 today = true := hall d1 (by simp)
          have h0t : strLt d0 today = true := strLt_of_lt_of_le h01 hd1t
          rw [List.takeWhile_cons, if_pos h0t] at htw
          have hsome : ((d0 :: List.takeWhile (fun d => strLt d today)
              (d1 :: rest)).getLast?).isSome = true :=
            List.getLast?_isSome.mpr (by simp)
          rw [htw] at hsome
          simp at hsome
      split at h
      · exact absurd h (by simp)
      · have he : e = e1 := by
          have := Except.ok.inj h
          exact (Prod.mk.injEq .. ▸ this).2.symm
        rw [he]
        exact he1

lemma firstNonempty_spec : ∀ {ls : List (List String)} {l : List String},
    firstNonempty ls = some l → l ∈ ls ∧ l.isEmpty = false := by
  intro ls
  induction ls with
  | nil => intro l h; simp [firstNonempty] at h
  | cons a as ih =>
    intro l h
    unfold firstNonempty at h
    split at h
    · obtain ⟨h1, h2⟩ := ih h
      exact ⟨List.mem_cons_of_mem _ h1, h2⟩
    · obtain rfl := Option.some.inj h
      rename_i hcond
      exact ⟨List.mem_cons_self _ _, by simpa using hcond⟩

lemma cliStockRow_intact (env : Env) (code sd : String) (ed : Option String) :
    rowIntact (cliStockRow env code sd ed) := by
  unfold cliStockRow
  split
  · exact ⟨fun h => absurd h (by simp), fun _ => by simp⟩
  · split
    · exact ⟨fun h => absurd h (by simp), fun _ => by simp⟩
    · exact ⟨fun _ => by simp, fun h => absurd rfl h⟩

lemma guiStockRow_intact (env : Env) (code sd : String) (ed : Option String) :
    rowIntact (guiStockRow env code sd ed) := by
  unfold guiStockRow
  split
  · exact ⟨fun h => absurd h (by simp), fun _ => by simp⟩
  · split
    · exact ⟨fun h => absurd h (by simp), fun _ => by simp⟩
    · exact ⟨fun _ => by simp, fun h => absurd rfl h⟩

lemma unresolvedRow_intact (label : String) : rowIntact (unresolvedRow label) :=
  ⟨fun h => absurd h (by simp [unresolvedRow]), fun _ => by simp [unresolvedRow]⟩

lemma optRatAgree_refl (a : Option ℚ) : optRatAgree a a := by
  cases a with
  | none => trivial
  | some x => simp [optRatAgree]

lemma optNatAgree_refl (a : Option ℕ) : optNatAgree a a := by
  cases a with
  | none => trivial
  | some x => simp [optNatAgree]

lemma optRealAgree_refl (a : Option ℝ) : optRealAgree a a := by
  cases a with
  | none => trivial
  | some x => simp [optRealAgree]

lemma rowsAgree_refl (r : Row) : rowsAgree r r :=
  ⟨rfl, rfl, optRatAgree_refl _, optRatAgree_refl _, optRatAgree_refl _,
   optNatAgree_refl _, optRatAgree_refl _, optNatAgree_refl _, optRatAgree_refl _,
   optRatAgree_refl _, optRealAgree_refl _, rfl, rfl⟩

lemma calculateStep_fst (ev : CalcEvent) (st : List Row) :
    (calculateStep ev st).1 = (eventSuccess ev).getD st := by
  unfold calculateStep eventSuccess
  split
  · rfl
  · split
    · rfl
    · split <;> rfl

lemma runCalcs_eq (events : List CalcEvent) (st : List Row) :
    runCalcs events st = (lastSuccessRows events).getD st := by
  induction events generalizing st with
  | nil => rfl
  | cons ev evs ih =>
    unfold runCalcs
    rw [List.foldl_cons]
    have hr : List.foldl (fun acc e => (calculateStep e acc).1)
        ((calculateStep ev st).1) evs = runCalcs evs ((calculateStep ev st).1) := rfl
    rw [hr, ih, calculateStep_fst]
    have hcons : lastSuccessRows (ev :: evs)
        = match lastSuccessRows evs with
          | some r => some r
          | none => eventSuccess ev := rfl
    rw [hcons]
    cases hls : lastSuccessRows evs with
    | some r => simp
    | none => simp

end TotalReturn

/-- C2: the text parser maps each of the ten literal plan descriptions of
the unit test to the expected per-share amount, within absolute tolerance
one billionth (embedded whitespace is stripped by the normalisation). -/
theorem claim2_text_cases :
    |TotalReturn.parse_cash_per_share_from_text "10派5元(含税)" - 5/10| ≤ 1/1000000000 ∧
    |TotalReturn.parse_cash_per_share_from_text "每10股派4.3元(含税)" - 43/100| ≤ 1/1000000000 ∧
    |TotalReturn.parse_cash_per_share_from_text "10送3股转2股派3元(含税)" - 3/10| ≤ 1/1000000000 ∧
    |TotalReturn.parse_cash_per_share_from_text "10派1.2元转4股" - 12/100| ≤ 1/1000000000 ∧
    |TotalReturn.parse_cash_per_share_from_text "每股派0.5元" - 5/10| ≤ 1/1000000000 ∧
    |TotalReturn.parse_cash_per_share_from_text "每股派息0.8元" - 8/10| ≤ 1/1000000000 ∧
    |TotalReturn.parse_cash_per_share_from_text "每10股派发现金红利5.5元" - 55/100| ≤ 1/1000000000 ∧
    |TotalReturn.parse_cash_per_share_from_text "不分配不转增" - 0| ≤ 1/1000000000 ∧
    |TotalReturn.parse_cash_per_share_from_text "10派0元" - 0| ≤ 1/1000000000 ∧
    |TotalReturn.parse_cash_per_share_from_text "每10股派  2 元" - 2/10| ≤ 1/1000000000 := by
  refine ⟨?_, ?_, ?_, ?_, ?_, ?_, ?_, ?_, ?_, ?_⟩
  · show |(TotalReturn.digitsVal ['5'] : ℚ) / 10 - 5/10| ≤ 1/1000000000
    rw [show TotalReturn.digitsVal ['5'] = 5 from by decide]
    norm_num
  · show |((TotalReturn.digitsVal ['4'] : ℚ)
        + (TotalReturn.digitsVal ['3'] : ℚ) / (10:ℚ) ^ (1:ℕ)) / 10 - 43/100| ≤ 1/1000000000
    rw [show TotalReturn.digitsVal ['4'] = 4 from by decide,
      show TotalReturn.digitsVal ['3'] = 3 from by decide]
    norm_num
  · show |(TotalReturn.digitsVal ['3'] : ℚ) / 10 - 3/10| ≤ 1/1000000000
    rw [show TotalReturn.digitsVal ['3'] = 3 from by decide]
    norm_num
  · show |((TotalReturn.digitsVal ['1'] : ℚ)
        + (TotalReturn.digitsVal ['2'] : ℚ) / (10:ℚ) ^ (1:ℕ)) / 10 - 12/100| ≤ 1/1000000000
    rw [show TotalReturn.digitsVal ['1'] = 1 from by decide,
      show TotalReturn.digitsVal ['2'] = 2 from by decide]
    norm_num
  · show |((TotalReturn.digitsVal ['0'] : ℚ)
        + (TotalReturn.digitsVal ['5'] : ℚ) / (10:ℚ) ^ (1:ℕ)) - 5/10| ≤ 1/1000000000
    rw [show TotalReturn.digitsVal ['0'] = 0 from by decide,
      show TotalReturn.digitsVal ['5'] = 5 from by decide]
    norm_num
  · show |((TotalReturn.digitsVal ['0'] : ℚ)
        + (TotalReturn.digitsVal ['8'] : ℚ) / (10:ℚ) ^ (1:ℕ)) - 8/10| ≤ 1/1000000000
    rw [show TotalReturn.digitsVal ['0'] = 0 from by decide,
      show TotalReturn.digitsVal ['8'] = 8 from by decide]
    norm_num
  · show |((TotalReturn.digitsVal ['5'] : ℚ)
        + (TotalReturn.digitsVal ['5'] : ℚ) / (10:ℚ) ^ (1:ℕ)) / 10 - 55/100| ≤ 1/1000000000
    rw [show TotalReturn.digitsVal ['5'] = 5 from by decide]
    norm_num
  · show |(0 : ℚ) - 0| ≤ 1/1000000000
    norm_num
  · show |(TotalReturn.digitsVal ['0'] : ℚ) / 10 - 0| ≤ 1/1000000000
    rw [show TotalReturn.digitsVal ['0'] = 0 from by decide]
    norm_num
  · show |(TotalReturn.digitsVal ['2'] : ℚ) / 10 - 2/10| ≤ 1/1000000000
    rw [show TotalReturn.digitsVal ['2'] = 2 from by decide]
    norm_num

/-- C4: the interval dividend sum is exactly the sum of cash_per_share,
and the count, over the events whose ex_date lies in the half open
interval (start_trade_date, end_trade_date] (start boundary excluded,
end boundary included); for events at 2023-06-19 and 2023-12-20 summed
over that interval only the December event is included. -/
theorem claim4_interval_sum :
    (∀ (events : List TotalReturn.DividendEvent) (s e : String),
      TotalReturn.sum_cash_dividends_in_interval events s e =
        (((events.filter (TotalReturn.inInterval s e)).map
            TotalReturn.DividendEvent.cash_per_share).sum,
         (events.filter (TotalReturn.inInterval s e)).length)) ∧
    TotalReturn.sum_cash_dividends_in_interval
      [⟨"2023-06-19", 1/2⟩, ⟨"2023-12-20", 1⟩] "2023-06-19" "2023-12-20" = (1, 1) := by
  constructor
  · intro events s e
    unfold TotalReturn.sum_cash_dividends_in_interval
    rw [TotalReturn.sum_cash_foldl_shift]
    simp
  · show ((0 : ℚ) + 1, (0 : ℕ) + 1) = (1, 1)
    norm_num

/-- C10: the text parser is total and never returns a negative amount,
and a matched amount that fails to parse as a number (two decimal points)
is treated as not matched, falling through to the 0.0 default. -/
theorem claim10_parse_safe :
    (∀ s : String, 0 ≤ TotalReturn.parse_cash_per_share_from_text s) ∧
    TotalReturn.parse_cash_per_share_from_text "10派1.2.3元" = 0 := by
  constructor
  · intro s
    unfold TotalReturn.parse_cash_per_share_from_text
    split
    · exact le_refl 0
    · exact TotalReturn.parseNormalized_nonneg _
  · decide

/-- C5: when the stock's own fetched price history is nonempty and its
first trading day lies strictly after the requested start date,
derive_trade_window_from_prices never fails with the
no-trading-date-on-or-after-start error, and whenever it succeeds the
returned start_trade_date is exactly that first trading day, not the
requested date. -/
theorem claim5_new_listing (env : TotalReturn.Env) (code sd : String) (ed : Option String)
    (d0 : String) (rest : List String)
    (hown : (env.ownRows code sd ed).isEmpty = false)
    (hdates : TotalReturn.sortedUniq ((env.ownRows code sd ed).filterMap id) = d0 :: rest)
    (hfirst : TotalReturn.strLt sd d0 = true) :
    TotalReturn.derive_trade_window_from_prices env code sd ed ≠
      Except.error (TotalReturn.ErrMsg.noStartCandidate sd code) ∧
    ∀ s e, TotalReturn.derive_trade_window_from_prices env code sd ed = .ok (s, e) →
      s = d0 := by
  have hpw := TotalReturn.sortedUniq_pairwise ((env.ownRows code sd ed).filterMap id)
  rw [hdates] at hpw
  have hall : ∀ d ∈ d0 :: rest, TotalReturn.strLe sd d = true := by
    intro d hd
    rcases List.mem_cons.mp hd with rfl | hd
    · exact TotalReturn.strLe_of_lt hfirst
    · exact TotalReturn.strLe_of_lt
        (TotalReturn.strLt_trans hfirst ((List.pairwise_cons.mp hpw).1 d hd))
  have hfilter : (d0 :: rest).filter (fun d => TotalReturn.strLe sd d) = d0 :: rest :=
    List.filter_eq_self.mpr hall
  have hder : TotalReturn.derive_trade_window_from_prices env code sd ed
      = TotalReturn.windowFromDates env.today code sd ed (d0 :: rest) := by
    unfold TotalReturn.derive_trade_window_from_prices
    rw [if_neg (by simp [hown]), hdates]
  rw [hder]
  unfold TotalReturn.windowFromDates
  rw [hfilter]
  simp only [List.head?_cons]
  constructor
  · split
    · simp
    · split
      · split <;> simp
      · split <;> simp
  · intro s e h
    split at h
    · exact absurd h (by simp)
    · split at h
      · split at h
        · exact absurd h (by simp)
        · have := Except.ok.inj h
          exact ((Prod.mk.injEq .. ▸ this).1).symm
      · split at h
        · exact absurd h (by simp)
        · have := Except.ok.inj h
          exact ((Prod.mk.injEq .. ▸ this).1).symm

/-- C6: when end_date is absent and at least two trading days exist in
whichever window was fetched (the stock's own history, or the reference
stock fallback), every successful derivation returns an end_trade_date
strictly before today's calendar date, never equal to it. -/
theorem claim6_default_end (env : TotalReturn.Env) (code sd : String)
    (hOwnLe : ∀ d ∈ (env.ownRows code sd none).filterMap id,
      TotalReturn.strLe d env.today = true)
    (hOwn2 : 2 ≤ (TotalReturn.sortedUniq ((env.ownRows code sd none).filterMap id)).length ∨
      (env.ownRows code sd none).isEmpty = true)
    (hFbLe : ∀ sym d, d ∈ env.proxyDates sym sd none →
      TotalReturn.strLe d env.today = true)
    (hFb2 : ∀ sym, TotalReturn.sortedUniq (env.proxyDates sym sd none) ≠ [] →
      2 ≤ (TotalReturn.sortedUniq (env.proxyDates sym sd none)).length) :
    ∀ s e, TotalReturn.derive_trade_window_from_prices env code sd none = .ok (s, e) →
      TotalReturn.strLt e env.today = true := by
  intro s e h
  unfold TotalReturn.derive_trade_window_from_prices at h
  by_cases hemp : (env.ownRows code sd none).isEmpty = true
  · rw [if_pos hemp] at h
    cases hfn : TotalReturn.firstNonempty (TotalReturn.fallbackSymbols.map fun sym =>
        TotalReturn.sortedUniq (env.proxyDates sym sd none)) with
    | none => rw [hfn] at h; exact absurd h (by simp)
    | some dates =>
      rw [hfn] at h
      obtain ⟨hmem, hne⟩ := TotalReturn.firstNonempty_spec hfn
      obtain ⟨sym, -, hsymeq⟩ := List.mem_map.mp hmem
      have hpw : dates.Pairwise (fun p q => TotalReturn.strLt p q = true) := by
        rw [← hsymeq]
        exact TotalReturn.sortedUniq_pairwise _
      have hall : ∀ d ∈ dates, TotalReturn.strLe d env.today = true := by
        intro d hd
        rw [← hsymeq] at hd
        exact hFbLe sym d (TotalReturn.mem_sortedUniq.mp hd)
      have hlen : 2 ≤ dates.length := by
        rw [← hsymeq]
        refine hFb2 sym ?_
        rw [hsymeq]
        intro hx
        rw [hx] at hne
        simp at hne
      exact TotalReturn.windowFromCalendar_ok_end_lt_today hpw hall hlen h
  · rw [if_neg hemp] at h
    cases hsd : TotalReturn.sortedUniq ((env.ownRows code sd none).filterMap id) with
    | nil => rw [hsd] at h; exact absurd h (by simp)
    | cons d0 rest =>
      rw [hsd] at h
      have hpw : (d0 :: rest).Pairwise (fun p q => TotalReturn.strLt p q = true) := by
        rw [← hsd]
        exact TotalReturn.sortedUniq_pairwise _
      have hall : ∀ d ∈ d0 :: rest, TotalReturn.strLe d env.today = true := by
        intro d hd
        rw [← hsd] at hd
        exact hOwnLe d (TotalReturn.mem_sortedUniq.mp hd)
      have hlen : 2 ≤ (d0 :: rest).length := by
        rcases hOwn2 with h2 | h2
        · rw [hsd] at h2; exact h2
        · exact absurd h2 (by simp [hemp])
      exact TotalReturn.windowFromDates_ok_end_lt_today hpw hall hlen h

theorem claim5_witness :
    TotalReturn.derive_trade_window_from_prices envW1 "688001" "2019-01-01" none ≠
      Except.error (TotalReturn.ErrMsg.noStartCandidate "2019-01-01" "688001") :=
  (claim5_new_listing envW1 "688001" "2019-01-01" none "2020-07-01" ["2020-07-02"]
    (by decide) (by decide) (by decide)).1

theorem claim6_witness : TotalReturn.strLt "2020-07-02" "2024-05-10" = true := by
  refine claim6_default_end envW1 "688001" "2019-01-01" ?_ ?_ ?_ ?_
    "2020-07-01" "2020-07-02" (by rfl)
  · decide
  · decide
  · intro sym d hd
    simp [envW1] at hd
  · intro sym h
    simp [envW1, TotalReturn.sortedUniq] at h

/-- C1: whenever the price, dividend and additional-share lookups
succeed and the calculator returns a result, the additional value per
share equals end_close times additional_shares_per_share and the total
return equals (end_close + dividend_sum + additional_value
- start_close) / start_close. -/
theorem claim1_total_return (env : TotalReturn.Env) (code s e : String)
    (r : TotalReturn.IntervalResult)
    (h : TotalReturn.compute_interval_total_return env code s e = .ok r) :
    r.additional_value_per_share = r.end_close * r.additional_shares_per_share ∧
    r.total_return = (r.end_close + r.dividend_sum_per_share
      + r.additional_value_per_share - r.start_close) / r.start_close := by
  unfold TotalReturn.compute_interval_total_return at h
  split at h
  · exact absurd h (by simp)
  · split at h
    · exact absurd h (by simp)
    · split at h
      split at h
      split at h
      · exact absurd h (by simp)
      · obtain rfl := Except.ok.inj h
        exact ⟨rfl, rfl⟩

/-- C1 witness: for start_close 10, end_close 12, dividend sum 0.5 and
additional shares 0.1, the additional value is 1.2 and the total return
is exactly 0.37. -/
theorem claim1_witness :
    TotalReturn.compute_interval_total_return envW2 "600519" "2023-01-03" "2023-12-29"
      = .ok resW2 ∧
    resW2.additional_value_per_share = resW2.end_close * resW2.additional_shares_per_share ∧
    resW2.total_return = (resW2.end_close + resW2.dividend_sum_per_share
      + resW2.additional_value_per_share - resW2.start_close) / resW2.start_close ∧
    resW2.additional_value_per_share = 12/10 ∧
    resW2.total_return = 37/100 := by
  refine ⟨rfl,
    (claim1_total_return envW2 "600519" "2023-01-03" "2023-12-29" resW2 rfl).1,
    (claim1_total_return envW2 "600519" "2023-01-03" "2023-12-29" resW2 rfl).2, ?_, ?_⟩
  · show (12 : ℚ) * (1/10) = 12/10
    norm_num
  · show ((12 : ℚ) + (0 + 1/2) + 12 * (1/10) - 10) / 10 = 37/100
    norm_num

/-- C7: in both the CLI and the desktop computation path the annualised
return of a successfully computed row is the shared annualisation of
its recomputed total return over its trade window, and that
annualisation equals (1 + total_return) ** (365 / calendar_days) - 1
when the whole-day difference is positive, and is absent when the
difference is zero or negative or a date fails to parse. -/
theorem claim7_annualized :
    (∀ (tr : ℚ) (s e : String) (days : ℤ),
      TotalReturn.dateDiffDays e s = some days → 0 < days →
      TotalReturn.annualizedReturn tr s e
        = some ((1 + (tr : ℝ)) ^ ((365 : ℝ) / (days : ℝ)) - 1)) ∧
    (∀ (tr : ℚ) (s e : String) (days : ℤ),
      TotalReturn.dateDiffDays e s = some days → days ≤ 0 →
      TotalReturn.annualizedReturn tr s e = none) ∧
    (∀ (tr : ℚ) (s e : String),
      TotalReturn.dateDiffDays e s = none →
      TotalReturn.annualizedReturn tr s e = none) ∧
    (∀ (env : TotalReturn.Env) (code sd : String) (ed : Option String),
      (TotalReturn.cliStockRow env code sd ed).error = none →
      ∃ tr s e, (TotalReturn.cliStockRow env code sd ed).total_return = some tr ∧
        (TotalReturn.cliStockRow env code sd ed).start_trade_date = some s ∧
        (TotalReturn.cliStockRow env code sd ed).end_trade_date = some e ∧
        (TotalReturn.cliStockRow env code sd ed).annualized_return
          = TotalReturn.annualizedReturn tr s e) ∧
    (∀ (env : TotalReturn.Env) (code sd : String) (ed : Option String),
      (TotalReturn.guiStockRow env code sd ed).error = none →
      ∃ tr s e, (TotalReturn.guiStockRow env code sd ed).total_return = some tr ∧
        (TotalReturn.guiStockRow env code sd ed).start_trade_date = some s ∧
        (TotalReturn.guiStockRow env code sd ed).end_trade_date = some e ∧
        (TotalReturn.guiStockRow env code sd ed).annualized_return
          = TotalReturn.annualizedReturn tr s e) := by
  refine ⟨?_, ?_, ?_, ?_, ?_⟩
  · intro tr s e days hd hpos
    unfold TotalReturn.annualizedReturn
    rw [hd]
    simp [hpos]
  · intro tr s e days hd hneg
    unfold TotalReturn.annualizedReturn
    rw [hd]
    simp only [if_neg (not_lt.mpr hneg)]
  · intro tr s e hd
    unfold TotalReturn.annualizedReturn
    rw [hd]
  · intro env code sd ed h
    unfold TotalReturn.cliStockRow at *
    split at h
    · exact absurd h (by simp)
    · split at h
      · exact absurd h (by simp)
      · exact ⟨_, _, _, rfl, rfl, rfl, rfl⟩
  · intro env code sd ed h
    unfold TotalReturn.guiStockRow at *
    split at h
    · exact absurd h (by simp)
    · split at h
      · exact absurd h (by simp)
      · exact ⟨_, _, _, rfl, rfl, rfl, rfl⟩

/-- C7 witness: a total return of 0.37 over a 365-day window annualises
to exactly 0.37, and a 0-day window has an absent annualised return
with no division by zero. -/
theorem claim7_witness :
    TotalReturn.dateDiffDays "2024-01-01" "2023-01-01" = some 365 ∧
    TotalReturn.annualizedReturn (37/100) "2023-01-01" "2024-01-01" = some ((37 : ℝ)/100) ∧
    TotalReturn.dateDiffDays "2023-01-01" "2023-01-01" = some 0 ∧
    TotalReturn.annualizedReturn (37/100) "2023-01-01" "2023-01-01" = none := by
  refine ⟨by decide, ?_, by decide, ?_⟩
  · have h1 := claim7_annualized.1 (37/100) "2023-01-01" "2024-01-01" 365
      (by decide) (by norm_num)
    rw [h1]
    have h2 : ((365 : ℝ) / ((365 : ℤ) : ℝ)) = 1 := by norm_num
    rw [h2, Real.rpow_one]
    simp only [Option.some.injEq]
    push_cast
    ring
  · exact claim7_annualized.2.1 (37/100) "2023-01-01" "2023-01-01" 0 (by decide) (by norm_num)

/-- C8: every output row of the CLI path and of the desktop computation
path (which the web path reuses unchanged) either has an absent error
and all numeric result fields present, or a present error and all
numeric result fields absent, never a mix. -/
theorem claim8_row_invariant :
    (∀ (env : TotalReturn.Env) (cfgCodes : List String) (sd : String) (ed : Option String),
      ∀ r ∈ TotalReturn.cliRunRows env cfgCodes sd ed, TotalReturn.rowIntact r) ∧
    (∀ (env : TotalReturn.Env) (items : List String) (sd : String) (ed : Option String),
      ∀ r ∈ TotalReturn.compute_for_codes env items sd ed, TotalReturn.rowIntact r) := by
  constructor
  · intro env cfgCodes sd ed r hr
    obtain ⟨c, -, rfl⟩ := List.mem_map.mp hr
    exact TotalReturn.cliStockRow_intact env (TotalReturn.zfill6 c) sd ed
  · intro env items sd ed r hr
    rcases List.mem_append.mp hr with hr | hr
    · obtain ⟨it, -, rfl⟩ := List.mem_map.mp hr
      exact TotalReturn.unresolvedRow_intact _
    · obtain ⟨c, -, rfl⟩ := List.mem_map.mp hr
      exact TotalReturn.guiStockRow_intact env c sd ed

/-- C8 witness: the invariant at a concrete environment, on the row the
CLI produces and on the row compute_for_codes produces. -/
theorem claim8_witness :
    TotalReturn.rowIntact
      (TotalReturn.cliStockRow envW2 "600519" "2023-01-01" (some "2023-12-29")) ∧
    TotalReturn.rowIntact
      (TotalReturn.guiStockRow envW2 "600519" "2023-01-01" (some "2023-12-29")) := by
  constructor
  · exact claim8_row_invariant.1 envW2 ["600519"] "2023-01-01" (some "2023-12-29")
      (TotalReturn.cliStockRow envW2 "600519" "2023-01-01" (some "2023-12-29"))
      (by exact List.Mem.head _)
  · exact claim8_row_invariant.2 envW2 ["600519"] "2023-01-01" (some "2023-12-29")
      (TotalReturn.guiStockRow envW2 "600519" "2023-01-01" (some "2023-12-29"))
      (by exact List.Mem.head _)

/-- C3 counterexample: with the window derivable but the price lookup
failing, the code 600519 resolves on both paths yet the two error rows
disagree: the CLI row keeps the derived trade dates and has no bonus
description while the desktop row has absent dates and an empty
description, so the rows are not comparator-equal. -/
theorem claim3_counterexample :
    TotalReturn.resolve_to_code envW3.nameToCode "600519" = some "600519" ∧
    ¬ TotalReturn.rowsAgree
      (TotalReturn.guiStockRow envW3 "600519" "2024-01-01" (some "2024-01-03"))
      (TotalReturn.cliStockRow envW3 "600519" "2024-01-01" (some "2024-01-03")) := by
  constructor
  · rfl
  · intro hagr
    obtain ⟨h1, -⟩ := hagr
    rw [show (TotalReturn.guiStockRow envW3 "600519" "2024-01-01"
        (some "2024-01-03")).start_trade_date = none from rfl,
      show (TotalReturn.cliStockRow envW3 "600519" "2024-01-01"
        (some "2024-01-03")).start_trade_date = some "2024-01-02" from rfl] at h1
    exact Option.noConfusion h1

/-- C3 as amended: for a fixed environment, for every code and window,
whenever the CLI row computes successfully (error absent) the desktop
row and the CLI row satisfy the comparator's equality, field by field
(and are in fact identical on every compared field). -/
theorem claim3_success_rows_agree (env : TotalReturn.Env) (code sd : String)
    (ed : Option String)
    (h : (TotalReturn.cliStockRow env code sd ed).error = none) :
    TotalReturn.rowsAgree (TotalReturn.guiStockRow env code sd ed)
      (TotalReturn.cliStockRow env code sd ed) := by
  unfold TotalReturn.cliStockRow TotalReturn.guiStockRow at *
  split at h
  · exact absurd h (by simp)
  · split at h
    · exact absurd h (by simp)
    · exact TotalReturn.rowsAgree_refl _

/-- C3 witness: on a concrete successful environment the desktop row and
the CLI row for the resolved code agree on every compared field. -/
theorem claim3_witness :
    TotalReturn.rowsAgree
      (TotalReturn.guiStockRow envW2 "600519" "2023-01-01" (some "2023-12-29"))
      (TotalReturn.cliStockRow envW2 "600519" "2023-01-01" (some "2023-12-29")) :=
  claim3_success_rows_agree envW2 "600519" "2023-01-01" (some "2023-12-29") rfl

/-- C9 counterexample: a /calculate that validates and computes
successfully but returns zero rows (stocks field holding only a comma)
overwrites the cache with an empty list, and the subsequent /export
then flashes no-results instead of serving the rows of that most recent
successful /calculate, so the export clause of the claim fails as
stated. -/
theorem claim9_counterexample :
    ¬ (∀ events : List TotalReturn.CalcEvent,
        TotalReturn.exportStep (TotalReturn.runCalcs events []) =
          match TotalReturn.lastSuccessRows events with
          | some rows => TotalReturn.ExportOutcome.served rows
          | none => TotalReturn.ExportOutcome.noResults) := by
  intro hall
  have h := hall [⟨",", "2019-01-01", Except.ok []⟩]
  rw [show TotalReturn.lastSuccessRows [⟨",", "2019-01-01", Except.ok []⟩]
      = some [] from rfl] at h
  rw [show TotalReturn.exportStep (TotalReturn.runCalcs
      [⟨",", "2019-01-01", Except.ok []⟩] []) = TotalReturn.ExportOutcome.noResults
      from rfl] at h
  exact TotalReturn.ExportOutcome.noConfusion h

/-- C9 as amended: a /calculate that fails validation (blank stocks or
blank start date) or whose computation raises leaves LAST_ROWS
unchanged; only a successful /calculate overwrites it, with its rows;
after any request sequence the cache holds the rows of the most recent
successful /calculate; and /export serves exactly those rows provided
they are nonempty (a successful /calculate with zero rows leaves
/export flashing no-results, by Python truthiness of the empty list). -/
theorem claim9_cache_behavior :
    (∀ (ev : TotalReturn.CalcEvent) (st : List TotalReturn.Row),
      TotalReturn.eventSuccess ev = none →
      (TotalReturn.calculateStep ev st).1 = st) ∧
    (∀ (ev : TotalReturn.CalcEvent) (st rows : List TotalReturn.Row),
      TotalReturn.eventSuccess ev = some rows →
      (TotalReturn.calculateStep ev st).1 = rows) ∧
    (∀ (events : List TotalReturn.CalcEvent) (rows : List TotalReturn.Row),
      TotalReturn.lastSuccessRows events = some rows →
      TotalReturn.runCalcs events [] = rows) ∧
    (∀ (events : List TotalReturn.CalcEvent) (rows : List TotalReturn.Row),
      TotalReturn.lastSuccessRows events = some rows → rows ≠ [] →
      TotalReturn.exportStep (TotalReturn.runCalcs events []) =
        TotalReturn.ExportOutcome.served rows) := by
  refine ⟨?_, ?_, ?_, ?_⟩
  · intro ev st h
    rw [TotalReturn.calculateStep_fst, h]
    rfl
  · intro ev st rows h
    rw [TotalReturn.calculateStep_fst, h]
    rfl
  · intro events rows h
    rw [TotalReturn.runCalcs_eq, h]
    rfl
  · intro events rows h hne
    rw [TotalReturn.runCalcs_eq, h]
    cases rows with
    | nil => exact absurd rfl hne
    | cons a l => rfl

/-- C9 witness: after one successful /calculate with one row, /export
serves exactly that row list. -/
theorem claim9_witness :
    TotalReturn.exportStep (TotalReturn.runCalcs
      [⟨"600519", "2019-01-01", Except.ok [TotalReturn.unresolvedRow "x"]⟩] []) =
      TotalReturn.ExportOutcome.served [TotalReturn.unresolvedRow "x"] :=
  claim9_cache_behavior.2.2.2
    [⟨"600519", "2019-01-01", Except.ok [TotalReturn.unresolvedRow "x"]⟩]
    [TotalReturn.unresolvedRow "x"] rfl (by simp)
